import Mathlib

/-!
Verification of the OpenTSDB write-path parsers of this repository:

* `opentsdb` — the newline-delimited ("telnet put") wire-format parser
  (`Rows`, `Row.unmarshal`, `unmarshalRows`, `unmarshalTags`, `Tag.unmarshal`).
* `opentsdbhttp` — the JSON wire-format parser (`Rows`, `Row.unmarshal`,
  `unmarshalRows`, `unmarshalTags`) and its request pipeline
  (`pushCtx.Read`, `insertHandlerInternal`).

Modelling conventions:

* Go slices are modelled by `Slice`: the visible elements (`data`) plus the
  number of spare capacity slots beyond the length (`spare`).  The Go idioms
  `s[:0]`, `if cap(dst) > len(dst) { dst = dst[:len(dst)+1] } else
  {dst = append(dst, X\x7b\x7d)}`, `dst[:len(dst)-1]` and writing through
  `&dst[len(dst)-1]` become `Slice.truncZero`, `Slice.grow`, `Slice.pop`
  and `Slice.setLast`.  A revived capacity slot's stale value is never
  observable in the source (it is either reset and overwritten, or popped),
  so `grow` fills the new slot with the zero value.
* `float64` values are modelled as exact rationals (`Frac`) together with an
  explicit IEEE-754 binary64 round-to-nearest-even operation `roundD`, applied
  after each arithmetic step exactly where the Go code performs a float
  operation.  Values outside the finite normal double range (overflow to
  infinity, subnormals) are not modelled; no claim depends on them.
* `int64` values are modelled as `Int` with explicit two's-complement wrapping
  (`wrap64`) and bitwise and (`land64`) where the source uses them.
* Strings attached to errors keep the literal message text of the source's
  `fmt.Errorf` calls with the `%s`/`%q`/`%d` payloads omitted (except the
  `%d` of the oversize message, which is kept).
-/

/-- Fraction `n / d`; the exact value of a Go `float64` (always dyadic) or an
exact intermediate before rounding.  All constructors used by the model keep
`d ≠ 0`. -/
structure Frac where
  n : Int
  d : Nat
deriving DecidableEq

namespace Frac

/-- Normalised form: divide out the gcd; a zero denominator becomes `0/1`. -/
def norm (a : Frac) : Frac :=
  if a.d = 0 then ⟨0, 1⟩
  else
    let g := a.n.natAbs.gcd a.d
    ⟨Int.tdiv a.n (g : Int), a.d / g⟩

def ofNat (v : Nat) : Frac := ⟨(v : Int), 1⟩

def neg (a : Frac) : Frac := ⟨-a.n, a.d⟩

def add (a b : Frac) : Frac := norm ⟨a.n * (b.d : Int) + b.n * (a.d : Int), a.d * b.d⟩

def mul (a b : Frac) : Frac := norm ⟨a.n * b.n, a.d * b.d⟩

/-- Division; the sign of the divisor is moved into the numerator. -/
def div (a b : Frac) : Frac := norm ⟨a.n * (b.d : Int) * b.n.sign, a.d * b.n.natAbs⟩

/-- Boolean `a ≤ b` by cross multiplication (denominators are positive). -/
def ble (a b : Frac) : Bool := decide (a.n * (b.d : Int) ≤ b.n * (a.d : Int))

/-- Boolean `a < b` by cross multiplication (denominators are positive). -/
def blt (a b : Frac) : Bool := decide (a.n * (b.d : Int) < b.n * (a.d : Int))

/-- Truncation toward zero: the Go conversion `int64(f)`. -/
def trunc (a : Frac) : Int := Int.tdiv a.n (a.d : Int)

def signed (minus : Bool) (a : Frac) : Frac := if minus then neg a else a

end Frac

/-- Structural-recursion `floor (log2 n)` (fuel-based so that the kernel can
evaluate it; `log2fuel n n` is exact for every `n`). -/
def log2fuel : Nat → Nat → Nat
  | 0, _ => 0
  | f+1, m => if 2 ≤ m then log2fuel f (m / 2) + 1 else 0

def nlog2 (m : Nat) : Nat := log2fuel m m

/-- Exact value `2 ^ e` for a (possibly negative) exponent. -/
def pow2f (e : Int) : Frac :=
  if 0 ≤ e then ⟨((2:Int) ^ e.toNat), 1⟩ else ⟨1, 2 ^ (-e).toNat⟩

/-- IEEE-754 binary64 round-to-nearest (ties to even) of a positive rational:
scale into the binade `[2^52, 2^53)`, round the scaled significand, and scale
back.  Exact for every finite normal double input. -/
def roundPos (q : Frac) : Frac :=
  let a := q.n.toNat
  let e0 : Int := (nlog2 a : Int) - (nlog2 q.d : Int)
  let e : Int :=
    if Frac.ble (pow2f (e0+1)) q then e0 + 1
    else if Frac.blt q (pow2f e0) then e0 - 1
    else e0
  let scaled := Frac.div q (pow2f (e - 52))
  let sn := scaled.n.toNat
  let m := sn / scaled.d
  let r := sn % scaled.d
  let m2 :=
    if scaled.d < 2*r then m+1
    else if 2*r < scaled.d then m
    else if m % 2 = 0 then m else m+1
  Frac.mul ⟨(m2 : Int), 1⟩ (pow2f (e - 52))

/-- Round-to-nearest double of an exact rational (the result of one Go
`float64` arithmetic operation on exactly-known operands). -/
def roundD (q : Frac) : Frac :=
  if q.n = 0 then ⟨0, 1⟩
  else if q.n < 0 then Frac.neg (roundPos (Frac.neg q))
  else roundPos q

/-- Digit scanner: consumes leading decimal digits, accumulating
`v*10 + digit` as in the fastfloat loops; returns (digit count, value,
rest). -/
def takeDigitsAux (cnt v : Nat) : List Char → Nat × Nat × List Char
  | [] => (cnt, v, [])
  | c :: rest =>
    if '0' ≤ c ∧ c ≤ '9' then takeDigitsAux (cnt+1) (v*10 + (c.toNat - 48)) rest
    else (cnt, v, c :: rest)

namespace fastfloat

/-- Exponent tail of a float token (after the `e`/`E`): optional sign, digits,
nothing may follow; the mantissa `f` is scaled by `10^exp` with one float
rounding, as in fastfloat's exponent handling. -/
def expoTail (f : Frac) (minus : Bool) (cs : List Char) : Option Frac :=
  match cs with
  | [] => none
  | c :: rest =>
    let eminus := c = '-'
    let cs1 := if c = '+' ∨ c = '-' then rest else c :: rest
    let (n, ev, rest2) := takeDigitsAux 0 0 cs1
    if n = 0 then none
    else if rest2 ≠ [] then none
    else
      let p := Frac.ofNat (10 ^ ev)
      let f1 := if eminus then roundD (Frac.div f p) else roundD (Frac.mul f p)
      some (Frac.signed minus f1)

/-- Strict float-token parse shared by the models of `fastfloat.Parse` (used
by fastjson's `Value.Float64`) and `fastfloat.ParseBestEffort`: optional
minus, integer digits, optional `.` fraction digits, optional exponent; any
leftover character fails.  The float arithmetic of the fastfloat fast path
(`f := float64(d); f += float64(fr) / math.Pow10(fracDigits)`) is modelled
with one `roundD` per float operation. -/
def parseFloatCore (cs : List Char) : Option Frac :=
  match cs with
  | [] => none
  | _ =>
    let minus := cs.head? = some '-'
    let cs1 := if minus then cs.tail else cs
    let (n, d, rest) := takeDigitsAux 0 0 cs1
    if n = 0 then none
    else
      let f0 := roundD (Frac.ofNat d)
      match rest with
      | [] => some (Frac.signed minus f0)
      | '.' :: rest1 =>
        let (m, fr, rest2) := takeDigitsAux 0 0 rest1
        if m = 0 then none
        else
          let f1 := roundD (Frac.add f0 (Frac.div (roundD (Frac.ofNat fr)) (Frac.ofNat (10 ^ m))))
          match rest2 with
          | [] => some (Frac.signed minus f1)
          | c :: rest3 => if c = 'e' ∨ c = 'E' then expoTail f1 minus rest3 else none
      | c :: rest1 => if c = 'e' ∨ c = 'E' then expoTail f0 minus rest1 else none

/-- Model of the external dependency `fastfloat.ParseBestEffort`
(valyala/fastjson/fastfloat), used by the line-format parser for timestamp
and value tokens: it never fails; a token that cannot be parsed as a float
yields `0`. -/
def ParseBestEffort (cs : List Char) : Frac :=
  match parseFloatCore cs with
  | some f => f
  | none => ⟨0, 1⟩

/-- Model of the external dependency `fastfloat.ParseInt64` used by fastjson's
`Value.Int64`: strict optional-minus-then-digits integer parse of the whole
token, failing on any leftover character or int64 overflow. -/
def ParseInt64 (cs : List Char) : Option Int :=
  match cs with
  | [] => none
  | _ =>
    let minus := cs.head? = some '-'
    let cs1 := if minus then cs.tail else cs
    let (n, d, rest) := takeDigitsAux 0 0 cs1
    if n = 0 then none
    else if rest ≠ [] then none
    else
      let v : Int := if minus then -(d : Int) else (d : Int)
      if -(2^63 : Int) ≤ v ∧ v ≤ (2^63 : Int) - 1 then some v else none

end fastfloat

/-- Two's-complement bit pattern of an int64 value as a natural number. -/
def toUInt64Bits (t : Int) : Nat := (Int.emod t ((2:Int)^64)).toNat

/-- Int64 value of a 64-bit pattern. -/
def ofUInt64Bits (u : Nat) : Int :=
  if u < 2^63 then (u : Int) else (u : Int) - (2:Int)^64

/-- Go's `&` on int64 operands. -/
def land64 (a b : Int) : Int :=
  ofUInt64Bits (Nat.land (toUInt64Bits a) (toUInt64Bits b))

/-- Go's wrapping int64 arithmetic result of an `Int` expression. -/
def wrap64 (t : Int) : Int := ofUInt64Bits (toUInt64Bits t)

/-- Go slice model: visible elements plus the number of spare capacity slots
between the slice's length and its capacity. -/
structure Slice (α : Type) where
  data : List α
  spare : Nat
deriving DecidableEq

namespace Slice

def cap (s : Slice α) : Nat := s.data.length + s.spare

/-- Go `s[:0]`: length zero, capacity retained. -/
def truncZero (s : Slice α) : Slice α := ⟨[], s.data.length + s.spare⟩

/-- Go `if cap(dst) > len(dst) { dst = dst[:len(dst)+1] } else { dst =
append(dst, zeroValue) }`: one new visible slot, taken from spare capacity
when available. -/
def grow (s : Slice α) (zeroValue : α) : Slice α :=
  if 0 < s.spare then ⟨s.data ++ [zeroValue], s.spare - 1⟩
  else ⟨s.data ++ [zeroValue], 0⟩

/-- Writing through `&dst[len(dst)-1]`. -/
def setLast (s : Slice α) (a : α) : Slice α := ⟨s.data.dropLast ++ [a], s.spare⟩

/-- Go `dst[:len(dst)-1]`: drop the last slot back into spare capacity. -/
def pop (s : Slice α) : Slice α := ⟨s.data.dropLast, s.spare + 1⟩

end Slice

/-- OpenTSDB tag; declared identically in the `opentsdb` and `opentsdbhttp`
packages. -/
structure Tag where
  Key : String
  Value : String
deriving DecidableEq

def Tag.zero : Tag := ⟨"", ""⟩

/-- Source `(t *Tag) reset()`. -/
def Tag.reset (_t : Tag) : Tag := Tag.zero

/-- Slice header of `Row.Tags`: a view `tagsPool[start : start+len : start+cap]`
into the shared tag pool.  The source's `tags[:len(tags):len(tags)]`
three-index expression sets `cap = len`.  The `nil` slice after `reset` is
`⟨0, 0, 0⟩`. -/
structure TagView where
  start : Nat
  len : Nat
  cap : Nat
deriving DecidableEq

def TagView.nil : TagView := ⟨0, 0, 0⟩

/-- OpenTSDB row; declared identically in both packages. -/
structure Row where
  Metric : String
  Tags : TagView
  Value : Frac
  Timestamp : Int
deriving DecidableEq

def Row.zero : Row := ⟨"", TagView.nil, ⟨0, 1⟩, 0⟩

/-- Source `(r *Row) reset()`. -/
def Row.reset (_r : Row) : Row := Row.zero

/-- The tags of a row, materialised from its view into the tag pool. -/
def Row.tagsList (r : Row) (pool : List Tag) : List Tag :=
  (pool.drop r.Tags.start).take r.Tags.len

/-- Row arena; declared identically in both packages.  The Go field
`Rows.Rows` is called `rows` here because Lean does not allow a field to
shadow its structure's name. -/
structure Rows where
  rows : Slice Row
  tagsPool : Slice Tag
deriving DecidableEq

/-- Source `(rs *Rows) Reset()` (textually identical in both packages):
zero every row and tag, then truncate both slices to length 0 keeping
capacity. -/
def Rows.Reset (rs : Rows) : Rows :=
  { rows := Slice.truncZero ⟨rs.rows.data.map Row.reset, rs.rows.spare⟩
    tagsPool := Slice.truncZero ⟨rs.tagsPool.data.map Tag.reset, rs.tagsPool.spare⟩ }

/-- The zero value of the arena (a fresh `Rows{}`). -/
def Rows.empty : Rows := ⟨⟨[], 0⟩, ⟨[], 0⟩⟩

/-- Split at the first occurrence of `c` (Go `strings.IndexByte` plus the
two slicings around the separator); `none` when `c` does not occur. -/
def splitFirst (c : Char) : List Char → Option (List Char × List Char)
  | [] => none
  | x :: xs =>
    if x = c then some ([], xs)
    else
      match splitFirst c xs with
      | none => none
      | some (a, b) => some (x :: a, b)

/-- Split at every occurrence of `c`; the source's loop that repeatedly takes
`s[:n]` and continues with `s[n+1:]` visits exactly these segments in this
order. -/
def splitAll (c : Char) : List Char → List (List Char)
  | [] => [[]]
  | x :: xs =>
    if x = c then [] :: splitAll c xs
    else
      match splitAll c xs with
      | [] => [[x]]
      | a :: rest => (x :: a) :: rest

namespace opentsdb

/-- Source `(t *Tag) unmarshal(s string) error` of the line-format package:
split at the first `=`; a missing `=` or an empty key is an error. -/
def Tag.unmarshal (s : List Char) : Except String Tag :=
  match splitFirst '=' s with
  | none => .error "missing tag value for"
  | some (k, v) =>
    if k = [] then .error "tag key cannot be empty for"
    else .ok ⟨String.mk k, String.mk v⟩

/-- Loop body of the line-format `unmarshalTags`: one space-separated
`key=value` segment per iteration; grow a slot, parse into it, pop the slot
and stop on error. -/
def unmarshalTagSegs (dst : Slice Tag) : List (List Char) → Slice Tag × Option String
  | [] => (dst, none)
  | seg :: rest =>
    let dst1 := Slice.grow dst Tag.zero
    match Tag.unmarshal seg with
    | .error e => (Slice.pop dst1, some e)
    | .ok t => unmarshalTagSegs (Slice.setLast dst1 t) rest

/-- Source `unmarshalTags(dst []Tag, s string) ([]Tag, error)` of the
line-format package. -/
def unmarshalTags (dst : Slice Tag) (s : List Char) : Slice Tag × Option String :=
  unmarshalTagSegs dst (splitAll ' ' s)

/-- Source `(r *Row) unmarshal(s string, tagsPool []Tag)` of the line-format
package: require the `put ` prefix, split metric / timestamp / value on
single spaces, parse timestamp and value with `fastfloat.ParseBestEffort`
(timestamp additionally truncated to int64), and parse the rest as tags.
Returns the row state (partial on error, as the source writes through a
pointer into the arena), the tag pool, and the error. -/
def Row.unmarshal (s : List Char) (tagsPool : Slice Tag) :
    Row × Slice Tag × Option String :=
  let r := Row.reset Row.zero
  if ("put ".data).isPrefixOf s then
    match splitFirst ' ' (s.drop 4) with
    | none => (r, tagsPool, some "cannot find whitespace between metric and timestamp in")
    | some (metricCs, tail1) =>
      let r1 := { r with Metric := String.mk metricCs }
      match splitFirst ' ' tail1 with
      | none => (r1, tagsPool, some "cannot find whitespace between timestamp and value in")
      | some (tsCs, tail2) =>
        let r2 := { r1 with Timestamp := Frac.trunc (fastfloat.ParseBestEffort tsCs) }
        match splitFirst ' ' tail2 with
        | none => (r2, tagsPool, some "cannot find whitespace between value and the first tag in")
        | some (vCs, tail3) =>
          let r3 := { r2 with Value := fastfloat.ParseBestEffort vCs }
          let tagsStart := tagsPool.data.length
          match unmarshalTags tagsPool tail3 with
          | (pool1, some e) => (r3, pool1, some ("cannot unmarshal tags in: " ++ e))
          | (pool1, none) =>
            let n := pool1.data.length - tagsStart
            ({ r3 with Tags := ⟨tagsStart, n, n⟩ }, pool1, none)
  else (r, tagsPool, some "missing `put ` prefix in")

/-- Loop body of the line-format `unmarshalRows`: one line per iteration,
empty lines skipped; grow a slot, unmarshal into it (the slot keeps the
partial row on error), stop at the first error. -/
def unmarshalRowSegs (dst : Slice Row) (pool : Slice Tag) :
    List (List Char) → Slice Row × Slice Tag × Option String
  | [] => (dst, pool, none)
  | seg :: rest =>
    if seg = [] then unmarshalRowSegs dst pool rest
    else
      let dst1 := Slice.grow dst Row.zero
      match Row.unmarshal seg pool with
      | (r, pool1, some e) =>
        (Slice.setLast dst1 r, pool1, some ("cannot unmarshal OpenTSDB line: " ++ e))
      | (r, pool1, none) => unmarshalRowSegs (Slice.setLast dst1 r) pool1 rest

/-- Source `unmarshalRows(dst []Row, s string, tagsPool []Tag)` of the
line-format package. -/
def unmarshalRows (dst : Slice Row) (s : List Char) (tagsPool : Slice Tag) :
    Slice Row × Slice Tag × Option String :=
  unmarshalRowSegs dst tagsPool (splitAll '\n' s)

/-- Source `(rs *Rows) Unmarshal(s string) error` of the line-format package:
`rs.Rows, rs.tagsPool, err = unmarshalRows(rs.Rows[:0], s, rs.tagsPool[:0])`. -/
def Rows.Unmarshal (rs : Rows) (s : String) : Rows × Option String :=
  let res := unmarshalRows (Slice.truncZero rs.rows) s.data (Slice.truncZero rs.tagsPool)
  (⟨res.1, res.2.1⟩, res.2.2)

end opentsdb

/-- Parsed JSON value as produced by the external fastjson parser.  A number
keeps its raw token text, which fastjson's `Value.Int64` / `Value.Float64`
parse on demand. -/
inductive JsonValue where
  | null
  | boolean (b : Bool)
  | num (raw : String)
  | str (s : String)
  | arr (elems : List JsonValue)
  | obj (fields : List (String × JsonValue))

namespace fastjson

/-- Model of fastjson `(v *Value).Get(key)`: the first field with the given
key of an object value, `nil` otherwise. -/
def jsonGet (v : JsonValue) (key : String) : Option JsonValue :=
  match v with
  | .obj fields => (fields.find? (fun kv => kv.1 == key)).map (fun kv => kv.2)
  | _ => none

/-- Model of fastjson `(v *Value).GetStringBytes(key)`. -/
def jsonGetStringBytes (v : JsonValue) (key : String) : Option String :=
  match jsonGet v key with
  | some (.str s) => some s
  | _ => none

/-- Model of fastjson `(v *Value).GetObject(key)`. -/
def jsonGetObject (v : JsonValue) (key : String) : Option (List (String × JsonValue)) :=
  match jsonGet v key with
  | some (.obj fields) => some fields
  | _ => none

/-- Model of fastjson `(v *Value).Int64()`: strict integer parse of a number
token via `fastfloat.ParseInt64`. -/
def jsonInt64 (v : JsonValue) : Except String Int :=
  match v with
  | .num raw =>
    match fastfloat.ParseInt64 raw.data with
    | some t => .ok t
    | none => .error "cannot parse int64"
  | _ => .error "value doesn't contain number"

/-- Model of fastjson `(v *Value).Float64()`: strict float parse of a number
token via `fastfloat.Parse`. -/
def jsonFloat64 (v : JsonValue) : Except String Frac :=
  match v with
  | .num raw =>
    match fastfloat.parseFloatCore raw.data with
    | some f => .ok f
    | none => .error "cannot parse float64"
  | _ => .error "value doesn't contain number"

end fastjson

namespace opentsdbhttp

/-- Source constant `SECOND_MASK int64 = 0x7FFFFFFF00000000`. -/
def SECOND_MASK : Int := 0x7FFFFFFF00000000

/-- Source `unmarshalTags(dst []Tag, tags *fastjson.Object) []Tag` of the
JSON-format package: visit each field in order; grow a slot, pop it again
when the value is not string-typed, otherwise store key and value.  Never
fails. -/
def unmarshalTags (dst : Slice Tag) : List (String × JsonValue) → Slice Tag
  | [] => dst
  | (k, v) :: rest =>
    let dst1 := Slice.grow dst Tag.zero
    match v with
    | .str tv => unmarshalTags (Slice.setLast dst1 ⟨k, tv⟩) rest
    | _ => unmarshalTags (Slice.pop dst1) rest

/-- Source `(r *Row) unmarshal(o *fastjson.Value, tagsPool []Tag)` of the
JSON-format package: require `metric` (string), `timestamp` (int64, falling
back to float64 times 1000 truncated), apply the seconds heuristic
`if ts & SECOND_MASK == 0 { ts *= 1000 }`, require `value` (float64) and
`tags` (object).  Returns the row state (partial on error), the tag pool,
and the error. -/
def Row.unmarshal (o : JsonValue) (tagsPool : Slice Tag) :
    Row × Slice Tag × Option String :=
  let r := Row.reset Row.zero
  match fastjson.jsonGetStringBytes o "metric" with
  | none => (r, tagsPool, some "missing `metric` field in")
  | some m =>
    let r1 := { r with Metric := m }
    match fastjson.jsonGet o "timestamp" with
    | none => (r1, tagsPool, some "missing `timestamp` field in")
    | some rawTs =>
      let tsRes : Except String Int :=
        match fastjson.jsonInt64 rawTs with
        | .ok ts => .ok ts
        | .error _ =>
          match fastjson.jsonFloat64 rawTs with
          | .ok tsF => .ok (Frac.trunc (roundD (Frac.mul tsF ⟨1000, 1⟩)))
          | .error _ => .error "invalid `timestamp` field in"
      match tsRes with
      | .error e => (r1, tagsPool, some e)
      | .ok ts0 =>
        let ts := if land64 ts0 SECOND_MASK = 0 then wrap64 (ts0 * 1000) else ts0
        let r2 := { r1 with Timestamp := ts }
        match fastjson.jsonGet o "value" with
        | none => (r2, tagsPool, some "missing `value` field in")
        | some rawV =>
          match fastjson.jsonFloat64 rawV with
          | .error _ => (r2, tagsPool, some "invalid `value` field in")
          | .ok v =>
            let r3 := { r2 with Value := v }
            match fastjson.jsonGetObject o "tags" with
            | none => (r3, tagsPool, some "missing `tags` field in")
            | some rawTags =>
              let tagsStart := tagsPool.data.length
              let pool1 := unmarshalTags tagsPool rawTags
              let n := pool1.data.length - tagsStart
              ({ r3 with Tags := ⟨tagsStart, n, n⟩ }, pool1, none)

/-- Loop body of the JSON-format `unmarshalRows` over the elements of a root
array. -/
def unmarshalObjElems (dst : Slice Row) (pool : Slice Tag) :
    List JsonValue → Slice Row × Slice Tag × Option String
  | [] => (dst, pool, none)
  | e :: rest =>
    let dst1 := Slice.grow dst Row.zero
    match Row.unmarshal e pool with
    | (r, pool1, some msg) =>
      (Slice.setLast dst1 r, pool1, some ("cannot unmarshal OpenTSDB body: " ++ msg))
    | (r, pool1, none) => unmarshalObjElems (Slice.setLast dst1 r) pool1 rest

/-- Source `unmarshalRows(dst []Row, av *fastjson.Value, tagsPool []Tag)` of
the JSON-format package: `nil` is an error, a root object is one row, a root
array is one row per element, anything else is a type error. -/
def unmarshalRows (dst : Slice Row) (av : Option JsonValue) (pool : Slice Tag) :
    Slice Row × Slice Tag × Option String :=
  match av with
  | none => (dst, pool, some "cannot unmarshal OpenTSDB body, it is empty")
  | some v =>
    match v with
    | .obj _ =>
      let dst1 := Slice.grow dst Row.zero
      match Row.unmarshal v pool with
      | (r, pool1, some msg) =>
        (Slice.setLast dst1 r, pool1, some ("cannot unmarshal OpenTSDB body: " ++ msg))
      | (r, pool1, none) => (Slice.setLast dst1 r, pool1, none)
    | .arr elems => unmarshalObjElems dst pool elems
    | _ => (dst, pool, some "cannot unmarshal OpenTSDB body, type is not object or array")

/-- Source `(rs *Rows) Unmarshal(av *fastjson.Value) error` of the
JSON-format package:
`rs.Rows, rs.tagsPool, err = unmarshalRows(rs.Rows[:0], av, rs.tagsPool[:0])`. -/
def Rows.Unmarshal (rs : Rows) (av : Option JsonValue) : Rows × Option String :=
  let res := unmarshalRows (Slice.truncZero rs.rows) av (Slice.truncZero rs.tagsPool)
  (⟨res.1, res.2.1⟩, res.2.2)

/-- One data point handed to the downstream insertion interface by
`ic.WriteDataPoint(nil, ic.Labels, r.Timestamp, r.Value)`. -/
structure DataPoint where
  labels : List Tag
  timestamp : Int
  value : Frac
deriving DecidableEq

/-- Model of `common.InsertCtx` at the granularity the claims need: the list
of data points written to the downstream storage interface (`FlushBufs` is
modelled as an always-successful handoff). -/
structure InsertCtx where
  points : List DataPoint
deriving DecidableEq

/-- Source `pushCtx` (the reusable per-request context); the fastjson parser
instance is stateless in the model and the gzip branch of the pipeline is
outside it (the modelled reader carries the already-decoded bytes). -/
structure pushCtx where
  rows : Rows
  Common : InsertCtx
  reqBuf : List Char
  err : Option String
deriving DecidableEq

/-- A fresh `&pushCtx{}` as returned by `getPushCtx` on an empty pool. -/
def pushCtx.fresh : pushCtx := ⟨Rows.empty, ⟨[]⟩, [], none⟩

/-- Source `(ctx *pushCtx) InsertRows() error`: for every parsed row, a label
set holding the metric under the empty key followed by one label per tag, and
one data point written downstream. -/
def pushCtx.InsertRows (ctx : pushCtx) : pushCtx :=
  let pool := ctx.rows.tagsPool.data
  let pts := ctx.rows.rows.data.map (fun r =>
    { labels := ⟨"", r.Metric⟩ :: Row.tagsList r pool
      timestamp := r.Timestamp
      value := r.Value : DataPoint })
  { ctx with Common := ⟨ctx.Common.points ++ pts⟩ }

/-- Source `(ctx *pushCtx) Read(r io.Reader, maxSize int64) bool`: read from
`io.LimitReader(r, maxSize+1)` into `reqBuf` (so at most one byte beyond the
limit is consumed), fail when more than `maxSize` bytes were read, then parse
the buffer as JSON (`parseBytes` models the external
`ctx.parser.ParseBytes`) and unmarshal it into the arena.  Returns the
context, the remaining reader and the continue flag. -/
def pushCtx.Read (ctx : pushCtx) (reader : List Char) (maxSize : Nat)
    (parseBytes : List Char → Option JsonValue) : pushCtx × List Char × Bool :=
  if ctx.err ≠ none then (ctx, reader, false)
  else
    let chunk := reader.take (maxSize + 1)
    let reader1 := reader.drop (maxSize + 1)
    let reqLen := chunk.length
    let ctx1 := { ctx with reqBuf := ctx.reqBuf ++ chunk }
    if maxSize < reqLen then
      ({ ctx1 with
          err := some ("too big packed request; mustn't exceed " ++ toString maxSize ++ " bytes") },
        reader1, false)
    else
      match parseBytes ctx1.reqBuf with
      | none => ({ ctx1 with err := some "error parsing json" }, reader1, false)
      | some v =>
        match Rows.Unmarshal ctx1.rows (some v) with
        | (rows1, some e) =>
          ({ ctx1 with
              rows := rows1
              err := some ("cannot unmarshal opentsdb http protocol json: " ++ e) },
            reader1, false)
        | (rows1, none) => ({ ctx1 with rows := rows1 }, reader1, true)

/-- The `for ctx.Read(r, maxSize) { ctx.InsertRows() }` loop of
`insertHandlerInternal`, with fuel bounding the number of iterations. -/
def insertLoop (parseBytes : List Char → Option JsonValue) :
    Nat → pushCtx → List Char → Nat → pushCtx × List Char
  | 0, ctx, reader, _ => (ctx, reader)
  | f+1, ctx, reader, maxSize =>
    match pushCtx.Read ctx reader maxSize parseBytes with
    | (ctx1, reader1, true) => insertLoop parseBytes f (pushCtx.InsertRows ctx1) reader1 maxSize
    | (ctx1, reader1, false) => (ctx1, reader1)

/-- Source `insertHandlerInternal(req, maxSize)` for an uncompressed body:
acquire a fresh context, run the read/insert loop, report `ctx.Error()`.
The model's reader never produces a read error (end of input is not an
error), so `ctx.err` is exactly `ctx.Error()`. -/
def insertHandlerInternal (parseBytes : List Char → Option JsonValue)
    (body : List Char) (maxSize : Nat) (fuel : Nat) : pushCtx × List Char :=
  insertLoop parseBytes fuel pushCtx.fresh body maxSize

end opentsdbhttp

/-- Tag views of consecutive rows form a chain of adjacent, full-capacity
sub-ranges of the tag pool, starting at `s` and ending at `e2`. -/
def viewsChain : Nat → List Row → Nat → Prop
  | s, [], e2 => s = e2
  | s, r :: rest, e2 =>
    r.Tags.start = s ∧ r.Tags.cap = r.Tags.len ∧ viewsChain (s + r.Tags.len) rest e2

/-- Arena invariant claimed for parsed rows: every row's tag view is a
full-capacity (`cap = len`) sub-range of the tag pool; the views of distinct
rows are pairwise disjoint and appear in the pool in parse order. -/
def arenaTagViewsOk (rs : Rows) : Prop :=
  viewsChain 0 rs.rows.data rs.tagsPool.data.length ∧
  (∀ (i : Nat) (hi : i < rs.rows.data.length),
    (rs.rows.data.get ⟨i, hi⟩).Tags.cap = (rs.rows.data.get ⟨i, hi⟩).Tags.len ∧
    (rs.rows.data.get ⟨i, hi⟩).Tags.start + (rs.rows.data.get ⟨i, hi⟩).Tags.len
      ≤ rs.tagsPool.data.length) ∧
  (∀ (i j : Nat) (hi : i < rs.rows.data.length) (hj : j < rs.rows.data.length), i < j →
    (rs.rows.data.get ⟨i, hi⟩).Tags.start + (rs.rows.data.get ⟨i, hi⟩).Tags.len
      ≤ (rs.rows.data.get ⟨j, hj⟩).Tags.start)

theorem grow_data {α : Type} (s : Slice α) (z : α) :
    (Slice.grow s z).data = s.data ++ [z] := by
  unfold Slice.grow; split <;> rfl

theorem setLast_grow_data {α : Type} (s : Slice α) (z a : α) :
    (Slice.setLast (Slice.grow s z) a).data = s.data ++ [a] := by
  unfold Slice.setLast
  rw [grow_data, List.dropLast_concat]

theorem pop_grow_data {α : Type} (s : Slice α) (z : α) :
    (Slice.pop (Slice.grow s z)).data = s.data := by
  unfold Slice.pop
  rw [grow_data, List.dropLast_concat]

theorem truncZero_reset_rows (rs : Rows) :
    Slice.truncZero (Rows.Reset rs).rows = Slice.truncZero rs.rows := by
  simp [Rows.Reset, Slice.truncZero]

theorem truncZero_reset_tagsPool (rs : Rows) :
    Slice.truncZero (Rows.Reset rs).tagsPool = Slice.truncZero rs.tagsPool := by
  simp [Rows.Reset, Slice.truncZero]

/-- Claim C9: resetting a Row Arena twice in a row produces the same arena
state as resetting once (the second call is a no-op); after `Reset` the arena
holds zero rows and zero tags while the backing capacity of both sequences is
retained.  `Rows.Reset` is declared identically in both the line-format and
JSON-format packages, so this settles the claim for both arenas. -/
theorem c9_reset_idempotent (rs : Rows) :
    Rows.Reset (Rows.Reset rs) = Rows.Reset rs ∧
    (Rows.Reset rs).rows.data = [] ∧
    (Rows.Reset rs).tagsPool.data = [] ∧
    Slice.cap (Rows.Reset rs).rows = Slice.cap rs.rows ∧
    Slice.cap (Rows.Reset rs).tagsPool = Slice.cap rs.tagsPool := by
  refine ⟨?_, rfl, rfl, ?_, ?_⟩ <;>
    simp [Rows.Reset, Slice.truncZero, Slice.cap]

/-- Claim C1 counterexample: the line
`put sys.cpu 1577836800 42.5 host=web01 dc=us\n` parses without error into
one row whose `Timestamp` is the raw token value `1577836800`, not the
millisecond value `1577836800000` asserted by the claim — the line-format
parser performs no seconds-to-milliseconds conversion. -/
theorem c1_counterexample :
    (opentsdb.Rows.Unmarshal Rows.empty "put sys.cpu 1577836800 42.5 host=web01 dc=us\n").2
      = none ∧
    ((opentsdb.Rows.Unmarshal Rows.empty
        "put sys.cpu 1577836800 42.5 host=web01 dc=us\n").1.rows.data.map Row.Timestamp
      = [1577836800]) ∧
    ¬ ((opentsdb.Rows.Unmarshal Rows.empty
        "put sys.cpu 1577836800 42.5 host=web01 dc=us\n").1.rows.data.map Row.Timestamp
      = [1577836800000]) := by
  refine ⟨by decide, by decide, by decide⟩

/-- Claim C1 amended: the line `put sys.cpu 1577836800 42.5 host=web01 dc=us\n`
parses to exactly one row with Metric `sys.cpu`, Timestamp `1577836800` (the
token value unchanged; the parser performs no unit conversion), Value `42.5`,
and the two tags `{host, web01}` and `{dc, us}` in that order. -/
theorem c1_amended :
    (opentsdb.Rows.Unmarshal Rows.empty "put sys.cpu 1577836800 42.5 host=web01 dc=us\n").2
      = none ∧
    ((opentsdb.Rows.Unmarshal Rows.empty
        "put sys.cpu 1577836800 42.5 host=web01 dc=us\n").1.rows.data.map
        (fun r => (r.Metric, r.Timestamp, r.Value))
      = [("sys.cpu", (1577836800 : Int), (⟨85, 2⟩ : Frac))]) ∧
    ((opentsdb.Rows.Unmarshal Rows.empty
        "put sys.cpu 1577836800 42.5 host=web01 dc=us\n").1.rows.data.map
        (fun r => Row.tagsList r
          (opentsdb.Rows.Unmarshal Rows.empty
            "put sys.cpu 1577836800 42.5 host=web01 dc=us\n").1.tagsPool.data)
      = [[⟨"host", "web01"⟩, ⟨"dc", "us"⟩]]) := by
  refine ⟨by decide, by decide, by decide⟩

/-- Claim C3: a JSON row whose `timestamp` token `1577836800.123` fails the
integer parse takes the float fallback: the float is multiplied by 1000 and
truncated, giving exactly `1577836800123` (the IEEE-754 product
`1577836800.123 * 1000.0` rounds up to the exact integer), and the
seconds-to-milliseconds heuristic does not multiply this result again
(its mask test is non-zero at `1577836800123`). -/
theorem c3_fractional_timestamp :
    (opentsdbhttp.Row.unmarshal
        (.obj [("metric", .str "cpu"), ("timestamp", .num "1577836800.123"),
               ("value", .num "42"), ("tags", .obj [("host", .str "web01")])])
        ⟨[], 0⟩).1.Timestamp = 1577836800123 ∧
    (opentsdbhttp.Row.unmarshal
        (.obj [("metric", .str "cpu"), ("timestamp", .num "1577836800.123"),
               ("value", .num "42"), ("tags", .obj [("host", .str "web01")])])
        ⟨[], 0⟩).2.2 = none ∧
    fastfloat.ParseInt64 "1577836800.123".data = none ∧
    ¬ (land64 1577836800123 opentsdbhttp.SECOND_MASK = 0) := by
  refine ⟨by decide, by decide, by decide, by decide⟩

/-- Claim C4 counterexample: after a successful line-format `Unmarshal` of
`put a 1 2 k=v`, a second `Unmarshal` of `put b 3 4 x=y` does not keep the
previously parsed row: the arena then holds exactly one row (the new one),
so the old rows are not "still present, in order, before the newly parsed
rows". -/
theorem c4_counterexample :
    (opentsdb.Rows.Unmarshal Rows.empty "put a 1 2 k=v").2 = none ∧
    (opentsdb.Rows.Unmarshal
        (opentsdb.Rows.Unmarshal Rows.empty "put a 1 2 k=v").1 "put b 3 4 x=y").2 = none ∧
    (opentsdb.Rows.Unmarshal Rows.empty "put a 1 2 k=v").1.rows.data.length = 1 ∧
    (opentsdb.Rows.Unmarshal
        (opentsdb.Rows.Unmarshal Rows.empty "put a 1 2 k=v").1 "put b 3 4 x=y").1.rows.data.length
      = 1 ∧
    ¬ ((opentsdb.Rows.Unmarshal
          (opentsdb.Rows.Unmarshal Rows.empty "put a 1 2 k=v").1 "put b 3 4 x=y").1.rows.data.take
          (opentsdb.Rows.Unmarshal Rows.empty "put a 1 2 k=v").1.rows.data.length
        = (opentsdb.Rows.Unmarshal Rows.empty "put a 1 2 k=v").1.rows.data) := by
  refine ⟨by decide, by decide, by decide, by decide, by decide⟩

/-- Claim C4 amended: `Unmarshal` truncates the arena (`rs.Rows[:0]`,
`rs.tagsPool[:0]`) before parsing, so its outcome is identical to parsing
into the freshly reset arena: prior rows are discarded, not appended to;
only the backing capacity is reused.  This holds for both the line-format
and the JSON-format arena. -/
theorem c4_amended :
    (∀ (rs : Rows) (s : String),
      opentsdb.Rows.Unmarshal rs s = opentsdb.Rows.Unmarshal (Rows.Reset rs) s) ∧
    (∀ (rs : Rows) (av : Option JsonValue),
      opentsdbhttp.Rows.Unmarshal rs av = opentsdbhttp.Rows.Unmarshal (Rows.Reset rs) av) := by
  constructor
  · intro rs s
    unfold opentsdb.Rows.Unmarshal
    rw [truncZero_reset_rows, truncZero_reset_tagsPool]
  · intro rs av
    unfold opentsdbhttp.Rows.Unmarshal
    rw [truncZero_reset_rows, truncZero_reset_tagsPool]

/-- Claim C5 counterexample: unmarshalling the JSON object `\x7b\x7d` (missing
all four required fields) into an empty arena reports the missing `metric`
field, but the arena's row count after the failed call is 1, not 0: the
partially-filled row stays in the arena, so the count is affected by the
failed row. -/
theorem c5_counterexample :
    (opentsdbhttp.Rows.Unmarshal Rows.empty (some (.obj []))).2
      = some "cannot unmarshal OpenTSDB body: missing `metric` field in" ∧
    ¬ ((opentsdbhttp.Rows.Unmarshal Rows.empty (some (.obj []))).1.rows.data.length = 0) := by
  refine ⟨rfl, by decide⟩

/-- Claim C8: in the JSON-format `unmarshalTags`, each tag whose value is not
string-typed is silently dropped (the grown slot is popped again) while
string-typed tags are kept in field order, and this never produces an error;
concretely, a row whose `tags` object is
`\x7ba: "x", b: 5, c: "y"\x7d` parses without error to the tag list
`[\x7ba, x\x7d, \x7bc, y\x7d]`. -/
theorem c8_nonstring_tags_dropped :
    (∀ (dst : Slice Tag) (fields : List (String × JsonValue)),
      (opentsdbhttp.unmarshalTags dst fields).data
        = dst.data ++ fields.filterMap (fun kv =>
            match kv.2 with
            | .str tv => some ⟨kv.1, tv⟩
            | _ => none)) ∧
    (opentsdbhttp.Row.unmarshal
        (.obj [("metric", .str "m"), ("timestamp", .num "1"), ("value", .num "2"),
               ("tags", .obj [("a", .str "x"), ("b", .num "5"), ("c", .str "y")])])
        ⟨[], 0⟩).2.2 = none ∧
    ((opentsdbhttp.Row.unmarshal
        (.obj [("metric", .str "m"), ("timestamp", .num "1"), ("value", .num "2"),
               ("tags", .obj [("a", .str "x"), ("b", .num "5"), ("c", .str "y")])])
        ⟨[], 0⟩).1.tagsList
      (opentsdbhttp.Row.unmarshal
        (.obj [("metric", .str "m"), ("timestamp", .num "1"), ("value", .num "2"),
               ("tags", .obj [("a", .str "x"), ("b", .num "5"), ("c", .str "y")])])
        ⟨[], 0⟩).2.1.data) = [⟨"a", "x"⟩, ⟨"c", "y"⟩] := by
  refine ⟨?_, by decide, by decide⟩
  intro dst fields
  induction fields generalizing dst with
  | nil => simp [opentsdbhttp.unmarshalTags]
  | cons kv rest ih =>
    obtain ⟨k, v⟩ := kv
    cases v <;>
      simp [opentsdbhttp.unmarshalTags, ih, setLast_grow_data, pop_grow_data,
        List.filterMap_cons]

theorem read_oversize (parse : List Char → Option JsonValue) (body : List Char)
    (maxSize : Nat) (h : maxSize < body.length) (ctx : opentsdbhttp.pushCtx)
    (hc : ctx.err = none) :
    opentsdbhttp.pushCtx.Read ctx body maxSize parse =
      ({ ctx with
          reqBuf := ctx.reqBuf ++ body.take (maxSize+1)
          err := some ("too big packed request; mustn't exceed " ++ toString maxSize ++ " bytes") },
        body.drop (maxSize+1), false) := by
  have hlen : maxSize < (body.take (maxSize+1)).length := by
    rw [List.length_take]; omega
  unfold opentsdbhttp.pushCtx.Read
  rw [hc]
  simp [hlen]
  intro hle
  exact absurd hle (by omega)

/-- Claim C6: for every request body longer than `maxSize` bytes, the
pipeline's `Read` step consumes exactly `maxSize + 1` bytes (one byte beyond
the limit, via `io.LimitReader(r, maxSize+1)`), records the oversize error,
and the whole request inserts zero rows. -/
theorem c6_oversize (parse : List Char → Option JsonValue) (body : List Char)
    (maxSize fuel : Nat) (hbig : maxSize < body.length) (hfuel : 1 ≤ fuel) :
    ((opentsdbhttp.insertHandlerInternal parse body maxSize fuel).1.err
        = some ("too big packed request; mustn't exceed " ++ toString maxSize ++ " bytes")) ∧
    (opentsdbhttp.insertHandlerInternal parse body maxSize fuel).1.Common.points = [] ∧
    (opentsdbhttp.insertHandlerInternal parse body maxSize fuel).2
        = body.drop (maxSize + 1) ∧
    body.length - (body.drop (maxSize + 1)).length = maxSize + 1 := by
  obtain ⟨f, rfl⟩ : ∃ f, fuel = f + 1 := ⟨fuel - 1, by omega⟩
  unfold opentsdbhttp.insertHandlerInternal opentsdbhttp.insertLoop
  rw [read_oversize parse body maxSize hbig opentsdbhttp.pushCtx.fresh rfl]
  refine ⟨rfl, rfl, rfl, ?_⟩
  rw [List.length_drop]
  omega

/-- Witness for C6 at a concrete oversize input. -/
theorem c6_oversize_witness :
    ((opentsdbhttp.insertHandlerInternal (fun _ => none) "abc".data 1 1).1.err
        = some ("too big packed request; mustn't exceed " ++ toString 1 ++ " bytes")) ∧
    (opentsdbhttp.insertHandlerInternal (fun _ => none) "abc".data 1 1).1.Common.points = [] ∧
    (opentsdbhttp.insertHandlerInternal (fun _ => none) "abc".data 1 1).2
        = "abc".data.drop 2 ∧
    "abc".data.length - ("abc".data.drop 2).length = 2 :=
  c6_oversize (fun _ => none) "abc".data 1 1 (by decide) (by decide)

theorem parseInt64_bound {cs : List Char} {t : Int}
    (h : fastfloat.ParseInt64 cs = some t) : -(2^63) ≤ t ∧ t ≤ 2^63 - 1 := by
  unfold fastfloat.ParseInt64 at h
  cases cs with
  | nil => simp at h
  | cons c cs' =>
    dsimp only at h
    rcases htd : takeDigitsAux 0 0
        (if (c :: cs').head? = some '-' then (c :: cs').tail else c :: cs') with ⟨n, d, rest⟩
    rw [htd] at h
    dsimp only at h
    split at h
    · exact absurd h (by simp)
    · split at h
      · exact absurd h (by simp)
      · split at h <;> split at h
        all_goals first
          | (obtain rfl := Option.some.inj h; omega)
          | simp at h

theorem land_mask_bound (u : Nat) (hu : u < 2^63)
    (hland : Nat.land u 0x7FFFFFFF00000000 = 0) : u < 2^32 := by
  by_contra hge
  push_neg at hge
  have hu0 : u ≠ 0 := by omega
  have h1 : 2 ^ Nat.log2 u ≤ u := Nat.log2_self_le hu0
  have h2 : u < 2 ^ (Nat.log2 u + 1) := Nat.lt_log2_self
  set k := Nat.log2 u with hkdef
  have hk32 : 32 ≤ k := by
    by_contra hk
    push_neg at hk
    have : (2:Nat) ^ (k + 1) ≤ 2 ^ 32 := Nat.pow_le_pow_right (by norm_num) (by omega)
    omega
  have hk62 : k ≤ 62 := by
    by_contra hk
    push_neg at hk
    have : (2:Nat) ^ 63 ≤ 2 ^ k := Nat.pow_le_pow_right (by norm_num) (by omega)
    omega
  have hdiv : u / 2 ^ k = 1 := by
    apply Nat.div_eq_of_lt_le
    · simpa using h1
    · have : (2:Nat) ^ (k + 1) = 2 * 2 ^ k := by ring
      omega
  have hbit : Nat.testBit u k = true := by
    rw [Nat.testBit_to_div_mod, hdiv]
    rfl
  have hmaskbit : Nat.testBit 0x7FFFFFFF00000000 k = true := by
    interval_cases k <;> decide
  have hland0 : Nat.testBit (Nat.land u 0x7FFFFFFF00000000) k = true := by
    have hsame : Nat.land u 0x7FFFFFFF00000000 = u &&& 0x7FFFFFFF00000000 := rfl
    rw [hsame, Nat.testBit_land, hbit, hmaskbit]
    rfl
  rw [hland] at hland0
  simp [Nat.zero_testBit] at hland0

theorem int_emod_eq_mod (a b : Int) : Int.emod a b = a % b := rfl

theorem wrap64_eq_self (t : Int) (h0 : 0 ≤ t) (h1 : t < 2^63) : wrap64 t = t := by
  unfold wrap64 toUInt64Bits ofUInt64Bits
  rw [int_emod_eq_mod, Int.emod_eq_of_lt h0 (by omega : t < (2:Int)^64)]
  have ht : ((t.toNat : Int)) = t := Int.toNat_of_nonneg h0
  rw [if_pos (by omega : t.toNat < 2^63)]
  exact ht

theorem land64_zero_bound (t : Int) (h0 : 0 ≤ t) (h1 : t < 2^63)
    (h : land64 t opentsdbhttp.SECOND_MASK = 0) : t < 2^32 := by
  unfold land64 toUInt64Bits opentsdbhttp.SECOND_MASK at h
  rw [int_emod_eq_mod, int_emod_eq_mod,
    Int.emod_eq_of_lt h0 (by omega : t < (2:Int)^64),
    Int.emod_eq_of_lt (by norm_num) (by norm_num)] at h
  have hmask : ((0x7FFFFFFF00000000 : Int)).toNat = 0x7FFFFFFF00000000 := rfl
  rw [hmask] at h
  have hub : Nat.land t.toNat 0x7FFFFFFF00000000 ≤ t.toNat := Nat.and_le_left
  have htn : t.toNat < 2^63 := by omega
  have hzero : Nat.land t.toNat 0x7FFFFFFF00000000 = 0 := by
    unfold ofUInt64Bits at h
    rw [if_pos (by omega)] at h
    exact_mod_cast h
  have := land_mask_bound t.toNat htn hzero
  omega

theorem row_unmarshal_timestamp (fields : List (String × JsonValue)) (m : String)
    (rawTs : JsonValue) (t : Int) (pool : Slice Tag)
    (h1 : fastjson.jsonGetStringBytes (.obj fields) "metric" = some m)
    (h2 : fastjson.jsonGet (.obj fields) "timestamp" = some rawTs)
    (hts : fastjson.jsonInt64 rawTs = .ok t) :
    (opentsdbhttp.Row.unmarshal (.obj fields) pool).1.Timestamp
      = if land64 t opentsdbhttp.SECOND_MASK = 0 then wrap64 (t * 1000) else t := by
  unfold opentsdbhttp.Row.unmarshal
  rw [h1]
  dsimp only
  rw [h2]
  dsimp only
  rw [hts]
  dsimp only
  repeat' split
  all_goals rfl

/-- Claim C2: for every JSON row object whose `timestamp` field token parses
as the int64 `t`, the stored timestamp is (in int64 arithmetic) `t * 1000`
when `t & 0x7FFFFFFF00000000 == 0` and `t` unchanged otherwise; when
`t ≥ 0` (every real epoch timestamp) the multiplication does not wrap, so
the stored value is exactly `t * 1000`; in particular `1000000000` is stored
as `1000000000000` and `1577836800000` is stored unchanged. -/
theorem c2_timestamp_heuristic (fields : List (String × JsonValue)) (m raw : String)
    (t : Int) (pool : Slice Tag)
    (h1 : fastjson.jsonGetStringBytes (.obj fields) "metric" = some m)
    (h2 : fastjson.jsonGet (.obj fields) "timestamp" = some (.num raw))
    (h3 : fastfloat.ParseInt64 raw.data = some t) :
    ((opentsdbhttp.Row.unmarshal (.obj fields) pool).1.Timestamp
        = if land64 t opentsdbhttp.SECOND_MASK = 0 then wrap64 (t * 1000) else t) ∧
    (land64 t opentsdbhttp.SECOND_MASK = 0 → 0 ≤ t →
      (opentsdbhttp.Row.unmarshal (.obj fields) pool).1.Timestamp = t * 1000) ∧
    (opentsdbhttp.Row.unmarshal
        (.obj [("metric", .str "m"), ("timestamp", .num "1000000000"),
               ("value", .num "1"), ("tags", .obj [])]) ⟨[], 0⟩).1.Timestamp
      = 1000000000000 ∧
    (opentsdbhttp.Row.unmarshal
        (.obj [("metric", .str "m"), ("timestamp", .num "1577836800000"),
               ("value", .num "1"), ("tags", .obj [])]) ⟨[], 0⟩).1.Timestamp
      = 1577836800000 := by
  have hts : fastjson.jsonInt64 (.num raw) = .ok t := by
    unfold fastjson.jsonInt64
    dsimp only
    rw [h3]
  have hmain := row_unmarshal_timestamp fields m (.num raw) t pool h1 h2 hts
  refine ⟨hmain, ?_, by decide, by decide⟩
  intro hmask h0
  have hb := parseInt64_bound h3
  have hlt : t < 2^63 := by omega
  have hsmall : t < 2^32 := land64_zero_bound t h0 hlt hmask
  rw [hmain, if_pos hmask, wrap64_eq_self (t * 1000) (by omega) (by omega)]

/-- Witness for C2 at the concrete object `timestamp = 1000000000`. -/
theorem c2_timestamp_heuristic_witness :
    ((opentsdbhttp.Row.unmarshal
        (.obj [("metric", .str "m"), ("timestamp", .num "1000000000"),
               ("value", .num "1"), ("tags", .obj [])]) ⟨[], 0⟩).1.Timestamp
        = if land64 1000000000 opentsdbhttp.SECOND_MASK = 0
          then wrap64 (1000000000 * 1000) else 1000000000) ∧
    (land64 1000000000 opentsdbhttp.SECOND_MASK = 0 → 0 ≤ (1000000000 : Int) →
      (opentsdbhttp.Row.unmarshal
        (.obj [("metric", .str "m"), ("timestamp", .num "1000000000"),
               ("value", .num "1"), ("tags", .obj [])]) ⟨[], 0⟩).1.Timestamp
        = 1000000000 * 1000) ∧
    (opentsdbhttp.Row.unmarshal
        (.obj [("metric", .str "m"), ("timestamp", .num "1000000000"),
               ("value", .num "1"), ("tags", .obj [])]) ⟨[], 0⟩).1.Timestamp
      = 1000000000000 ∧
    (opentsdbhttp.Row.unmarshal
        (.obj [("metric", .str "m"), ("timestamp", .num "1577836800000"),
               ("value", .num "1"), ("tags", .obj [])]) ⟨[], 0⟩).1.Timestamp
      = 1577836800000 :=
  c2_timestamp_heuristic
    [("metric", .str "m"), ("timestamp", .num "1000000000"),
     ("value", .num "1"), ("tags", .obj [])]
    "m" "1000000000" 1000000000 ⟨[], 0⟩ rfl rfl (by decide)

theorem ru_missing_metric (fields : List (String × JsonValue)) (pool : Slice Tag)
    (h : fastjson.jsonGetStringBytes (.obj fields) "metric" = none) :
    opentsdbhttp.Row.unmarshal (.obj fields) pool
      = (Row.zero, pool, some "missing `metric` field in") := by
  unfold opentsdbhttp.Row.unmarshal
  rw [h]
  rfl

theorem ru_missing_timestamp (fields : List (String × JsonValue)) (pool : Slice Tag)
    (m : String) (h1 : fastjson.jsonGetStringBytes (.obj fields) "metric" = some m)
    (h2 : fastjson.jsonGet (.obj fields) "timestamp" = none) :
    opentsdbhttp.Row.unmarshal (.obj fields) pool
      = ({ Row.zero with Metric := m }, pool, some "missing `timestamp` field in") := by
  unfold opentsdbhttp.Row.unmarshal
  rw [h1]
  dsimp only
  rw [h2]
  rfl

theorem ru_missing_value (fields : List (String × JsonValue)) (pool : Slice Tag)
    (m : String) (rawTs : JsonValue) (t : Int)
    (h1 : fastjson.jsonGetStringBytes (.obj fields) "metric" = some m)
    (h2 : fastjson.jsonGet (.obj fields) "timestamp" = some rawTs)
    (h3 : fastjson.jsonInt64 rawTs = .ok t)
    (h4 : fastjson.jsonGet (.obj fields) "value" = none) :
    (opentsdbhttp.Row.unmarshal (.obj fields) pool).2
      = (pool, some "missing `value` field in") := by
  unfold opentsdbhttp.Row.unmarshal
  rw [h1]
  dsimp only
  rw [h2]
  dsimp only
  rw [h3]
  dsimp only
  rw [h4]

theorem ru_missing_tags (fields : List (String × JsonValue)) (pool : Slice Tag)
    (m : String) (rawTs rawV : JsonValue) (t : Int) (v : Frac)
    (h1 : fastjson.jsonGetStringBytes (.obj fields) "metric" = some m)
    (h2 : fastjson.jsonGet (.obj fields) "timestamp" = some rawTs)
    (h3 : fastjson.jsonInt64 rawTs = .ok t)
    (h4 : fastjson.jsonGet (.obj fields) "value" = some rawV)
    (h5 : fastjson.jsonFloat64 rawV = .ok v)
    (h6 : fastjson.jsonGetObject (.obj fields) "tags" = none) :
    (opentsdbhttp.Row.unmarshal (.obj fields) pool).2
      = (pool, some "missing `tags` field in") := by
  unfold opentsdbhttp.Row.unmarshal
  rw [h1]
  dsimp only
  rw [h2]
  dsimp only
  rw [h3]
  dsimp only
  rw [h4]
  dsimp only
  rw [h5]
  dsimp only
  rw [h6]

theorem unmarshal_obj_err (rs : Rows) (fields : List (String × JsonValue)) (msg : String)
    (hmsg : (opentsdbhttp.Row.unmarshal (.obj fields)
        (Slice.truncZero rs.tagsPool)).2.2 = some msg) :
    (opentsdbhttp.Rows.Unmarshal rs (some (.obj fields))).2
        = some ("cannot unmarshal OpenTSDB body: " ++ msg) ∧
    (opentsdbhttp.Rows.Unmarshal rs (some (.obj fields))).1.rows.data.length = 1 := by
  unfold opentsdbhttp.Rows.Unmarshal opentsdbhttp.unmarshalRows
  dsimp only
  rcases hru : opentsdbhttp.Row.unmarshal (.obj fields) (Slice.truncZero rs.tagsPool)
    with ⟨r, pool1, e⟩
  obtain rfl : e = some msg := hmsg.symm.trans (by rw [hru]) |>.symm
  dsimp only
  refine ⟨rfl, ?_⟩
  rw [setLast_grow_data]
  rfl

theorem read_unmarshal_err (parse : List Char → Option JsonValue) (body : List Char)
    (maxSize : Nat) (v : JsonValue) (msg : String)
    (hlen : body.length ≤ maxSize)
    (hparse : parse body = some v)
    (hum : (opentsdbhttp.Rows.Unmarshal Rows.empty (some v)).2 = some msg) :
    opentsdbhttp.pushCtx.Read opentsdbhttp.pushCtx.fresh body maxSize parse
      = ({ rows := (opentsdbhttp.Rows.Unmarshal Rows.empty (some v)).1
           Common := ⟨[]⟩
           reqBuf := body
           err := some ("cannot unmarshal opentsdb http protocol json: " ++ msg) },
          body.drop (maxSize+1), false) := by
  unfold opentsdbhttp.pushCtx.Read
  rw [if_neg (by simp [opentsdbhttp.pushCtx.fresh])]
  dsimp only [opentsdbhttp.pushCtx.fresh]
  rw [List.take_of_length_le (by omega : body.length ≤ maxSize + 1)]
  rw [if_neg (by omega : ¬ maxSize < body.length)]
  rw [List.nil_append, hparse]
  dsimp only
  rcases hu : opentsdbhttp.Rows.Unmarshal Rows.empty (some v) with ⟨rows1, e⟩
  obtain rfl : e = some msg := hum.symm.trans (by rw [hu]) |>.symm
  rfl

/-- Claim C5 amended: a JSON row object missing any of the four required
fields `metric`, `timestamp`, `value`, `tags` (each later field checked only
after the earlier ones are well-formed, as the source short-circuits in that
order) makes `Unmarshal` fail with the error naming the missing field; the
failed row stays in the arena as a partial row (for a single-object body the
row count after the failed call is 1, not 0), and the pipeline discards the
whole request on such an error: `Read` returns false and zero rows are
inserted. -/
theorem c5_missing_field_errors :
    (∀ (rs : Rows) (fields : List (String × JsonValue)),
      fastjson.jsonGetStringBytes (.obj fields) "metric" = none →
        (opentsdbhttp.Rows.Unmarshal rs (some (.obj fields))).2
          = some ("cannot unmarshal OpenTSDB body: " ++ "missing `metric` field in") ∧
        (opentsdbhttp.Rows.Unmarshal rs (some (.obj fields))).1.rows.data.length = 1) ∧
    (∀ (rs : Rows) (fields : List (String × JsonValue)) (m : String),
      fastjson.jsonGetStringBytes (.obj fields) "metric" = some m →
      fastjson.jsonGet (.obj fields) "timestamp" = none →
        (opentsdbhttp.Rows.Unmarshal rs (some (.obj fields))).2
          = some ("cannot unmarshal OpenTSDB body: " ++ "missing `timestamp` field in") ∧
        (opentsdbhttp.Rows.Unmarshal rs (some (.obj fields))).1.rows.data.length = 1) ∧
    (∀ (rs : Rows) (fields : List (String × JsonValue)) (m : String) (rawTs : JsonValue)
        (t : Int),
      fastjson.jsonGetStringBytes (.obj fields) "metric" = some m →
      fastjson.jsonGet (.obj fields) "timestamp" = some rawTs →
      fastjson.jsonInt64 rawTs = .ok t →
      fastjson.jsonGet (.obj fields) "value" = none →
        (opentsdbhttp.Rows.Unmarshal rs (some (.obj fields))).2
          = some ("cannot unmarshal OpenTSDB body: " ++ "missing `value` field in") ∧
        (opentsdbhttp.Rows.Unmarshal rs (some (.obj fields))).1.rows.data.length = 1) ∧
    (∀ (rs : Rows) (fields : List (String × JsonValue)) (m : String)
        (rawTs rawV : JsonValue) (t : Int) (v : Frac),
      fastjson.jsonGetStringBytes (.obj fields) "metric" = some m →
      fastjson.jsonGet (.obj fields) "timestamp" = some rawTs →
      fastjson.jsonInt64 rawTs = .ok t →
      fastjson.jsonGet (.obj fields) "value" = some rawV →
      fastjson.jsonFloat64 rawV = .ok v →
      fastjson.jsonGetObject (.obj fields) "tags" = none →
        (opentsdbhttp.Rows.Unmarshal rs (some (.obj fields))).2
          = some ("cannot unmarshal OpenTSDB body: " ++ "missing `tags` field in") ∧
        (opentsdbhttp.Rows.Unmarshal rs (some (.obj fields))).1.rows.data.length = 1) ∧
    (∀ (parse : List Char → Option JsonValue) (body : List Char) (maxSize fuel : Nat)
        (fields : List (String × JsonValue)),
      parse body = some (.obj fields) →
      fastjson.jsonGetStringBytes (.obj fields) "metric" = none →
      body.length ≤ maxSize → 1 ≤ fuel →
        (opentsdbhttp.insertHandlerInternal parse body maxSize fuel).1.Common.points = [] ∧
        (opentsdbhttp.insertHandlerInternal parse body maxSize fuel).1.err
          = some ("cannot unmarshal opentsdb http protocol json: "
              ++ ("cannot unmarshal OpenTSDB body: " ++ "missing `metric` field in"))) := by
  refine ⟨?_, ?_, ?_, ?_, ?_⟩
  · intro rs fields h
    exact unmarshal_obj_err rs fields _ (by rw [ru_missing_metric fields _ h])
  · intro rs fields m h1 h2
    exact unmarshal_obj_err rs fields _ (by rw [ru_missing_timestamp fields _ m h1 h2])
  · intro rs fields m rawTs t h1 h2 h3 h4
    have h := ru_missing_value fields (Slice.truncZero rs.tagsPool) m rawTs t h1 h2 h3 h4
    exact unmarshal_obj_err rs fields _ (by rw [show (opentsdbhttp.Row.unmarshal
      (.obj fields) (Slice.truncZero rs.tagsPool)).2.2
      = ((opentsdbhttp.Row.unmarshal (.obj fields) (Slice.truncZero rs.tagsPool)).2).2 from rfl, h])
  · intro rs fields m rawTs rawV t v h1 h2 h3 h4 h5 h6
    have h := ru_missing_tags fields (Slice.truncZero rs.tagsPool) m rawTs rawV t v h1 h2 h3 h4 h5 h6
    exact unmarshal_obj_err rs fields _ (by rw [show (opentsdbhttp.Row.unmarshal
      (.obj fields) (Slice.truncZero rs.tagsPool)).2.2
      = ((opentsdbhttp.Row.unmarshal (.obj fields) (Slice.truncZero rs.tagsPool)).2).2 from rfl, h])
  · intro parse body maxSize fuel fields hparse hmetric hlen hfuel
    obtain ⟨f, rfl⟩ : ∃ f, fuel = f + 1 := ⟨fuel - 1, by omega⟩
    have hum := (unmarshal_obj_err Rows.empty fields _
      (by rw [ru_missing_metric fields _ hmetric])).1
    unfold opentsdbhttp.insertHandlerInternal opentsdbhttp.insertLoop
    rw [read_unmarshal_err parse body maxSize (.obj fields)
      ("cannot unmarshal OpenTSDB body: " ++ "missing `metric` field in") hlen hparse hum]
    exact ⟨rfl, rfl⟩

/-- Witness for the amended C5 at the empty JSON object. -/
theorem c5_missing_field_errors_witness :
    ((opentsdbhttp.Rows.Unmarshal Rows.empty (some (.obj []))).2
       = some ("cannot unmarshal OpenTSDB body: " ++ "missing `metric` field in") ∧
     (opentsdbhttp.Rows.Unmarshal Rows.empty (some (.obj []))).1.rows.data.length = 1) ∧
    ((opentsdbhttp.insertHandlerInternal (fun _ => some (.obj [])) "x".data 5 1).1.Common.points
       = [] ∧
     (opentsdbhttp.insertHandlerInternal (fun _ => some (.obj [])) "x".data 5 1).1.err
       = some ("cannot unmarshal opentsdb http protocol json: "
           ++ ("cannot unmarshal OpenTSDB body: " ++ "missing `metric` field in"))) :=
  ⟨c5_missing_field_errors.1 Rows.empty [] rfl,
   c5_missing_field_errors.2.2.2.2 (fun _ => some (.obj [])) "x".data 5 1 [] rfl rfl
     (by decide) (by decide)⟩

theorem splitFirst_append (c : Char) (xs ys : List Char) (h : c ∉ xs) :
    splitFirst c (xs ++ c :: ys) = some (xs, ys) := by
  induction xs with
  | nil => simp [splitFirst]
  | cons a as ih =>
    have ha : ¬ a = c := by
      intro hh
      exact h (hh ▸ List.mem_cons_self a as)
    have h' : c ∉ as := fun hm => h (List.mem_cons_of_mem a hm)
    simp [splitFirst, ha, ih h']

theorem put_isPrefixOf (rest : List Char) :
    ("put ".data).isPrefixOf ("put ".data ++ rest) = true := by
  rw [List.isPrefixOf_iff_prefix]
  exact List.prefix_append _ _

theorem put_drop (rest : List Char) : ("put ".data ++ rest).drop 4 = rest := by
  have hl : ("put ".data).length = 4 := rfl
  rw [← hl]
  exact List.drop_left _ _

/-- Claim C7: the line-format parser reads the timestamp and value tokens
with the best-effort parser `fastfloat.ParseBestEffort`: whatever the two
tokens contain (garbage, trailing garbage, anything without a space), the
row parses without error, the row fields are the best-effort results, and a
token the strict float grammar rejects yields the value `0` rather than an
error. -/
theorem c7_best_effort (metricCs tsCs vCs tg : List Char) (pool : Slice Tag)
    (s : List Char)
    (hs : s = "put ".data ++ (metricCs ++ ' ' :: (tsCs ++ ' ' :: (vCs ++ ' ' :: tg))))
    (hm : ' ' ∉ metricCs) (ht : ' ' ∉ tsCs) (hv : ' ' ∉ vCs)
    (htags : (opentsdb.unmarshalTags pool tg).2 = none) :
    (opentsdb.Row.unmarshal s pool).2.2 = none ∧
    (opentsdb.Row.unmarshal s pool).1.Timestamp
      = Frac.trunc (fastfloat.ParseBestEffort tsCs) ∧
    (opentsdb.Row.unmarshal s pool).1.Value = fastfloat.ParseBestEffort vCs ∧
    (∀ cs, fastfloat.parseFloatCore cs = none → fastfloat.ParseBestEffort cs = ⟨0, 1⟩) := by
  subst hs
  unfold opentsdb.Row.unmarshal
  rw [if_pos (put_isPrefixOf _), put_drop]
  rw [splitFirst_append ' ' metricCs _ hm]
  dsimp only
  rw [splitFirst_append ' ' tsCs _ ht]
  dsimp only
  rw [splitFirst_append ' ' vCs _ hv]
  dsimp only
  rcases hut : opentsdb.unmarshalTags pool tg with ⟨pool1, e⟩
  obtain rfl : e = none := htags.symm.trans (by rw [hut]) |>.symm
  dsimp only
  exact ⟨rfl, rfl, rfl, fun cs hcs => by simp [fastfloat.ParseBestEffort, hcs]⟩

/-- Witness for C7 with garbage numeric tokens `12x` and `abc`. -/
theorem c7_best_effort_witness :
    (opentsdb.Row.unmarshal "put cpu 12x abc k=v".data ⟨[], 0⟩).2.2 = none ∧
    (opentsdb.Row.unmarshal "put cpu 12x abc k=v".data ⟨[], 0⟩).1.Timestamp
      = Frac.trunc (fastfloat.ParseBestEffort "12x".data) ∧
    (opentsdb.Row.unmarshal "put cpu 12x abc k=v".data ⟨[], 0⟩).1.Value
      = fastfloat.ParseBestEffort "abc".data ∧
    fastfloat.ParseBestEffort "12x".data = ⟨0, 1⟩ :=
  have h := c7_best_effort "cpu".data "12x".data "abc".data "k=v".data ⟨[], 0⟩
    "put cpu 12x abc k=v".data (by decide) (by decide) (by decide) (by decide) (by decide)
  ⟨h.1, h.2.1, h.2.2.1, h.2.2.2 "12x".data (by decide)⟩

theorem chain_le (s : Nat) (rows : List Row) (e2 : Nat) (h : viewsChain s rows e2) :
    s ≤ e2 := by
  induction rows generalizing s with
  | nil =>
    have h' : s = e2 := h
    omega
  | cons r rest ih =>
    have := ih (s + r.Tags.len) h.2.2
    omega

theorem chain_get (s : Nat) (rows : List Row) (e2 : Nat) (h : viewsChain s rows e2)
    (i : Nat) (hi : i < rows.length) :
    (rows.get ⟨i, hi⟩).Tags.cap = (rows.get ⟨i, hi⟩).Tags.len ∧
    s ≤ (rows.get ⟨i, hi⟩).Tags.start ∧
    (rows.get ⟨i, hi⟩).Tags.start + (rows.get ⟨i, hi⟩).Tags.len ≤ e2 := by
  induction rows generalizing s i with
  | nil => exact absurd hi (by simp)
  | cons r rest ih =>
    obtain ⟨h1, h2, h3⟩ := h
    cases i with
    | zero =>
      have hrest := chain_le (s + r.Tags.len) rest e2 h3
      show r.Tags.cap = r.Tags.len ∧ s ≤ r.Tags.start ∧ r.Tags.start + r.Tags.len ≤ e2
      refine ⟨h2, ?_, ?_⟩ <;> omega
    | succ i2 =>
      have hi2 : i2 < rest.length := by simpa using hi
      have hrec := ih (s + r.Tags.len) h3 i2 hi2
      show (rest.get ⟨i2, hi2⟩).Tags.cap = (rest.get ⟨i2, hi2⟩).Tags.len ∧
        s ≤ (rest.get ⟨i2, hi2⟩).Tags.start ∧
        (rest.get ⟨i2, hi2⟩).Tags.start + (rest.get ⟨i2, hi2⟩).Tags.len ≤ e2
      refine ⟨hrec.1, ?_, hrec.2.2⟩
      have := hrec.2.1
      omega

theorem chain_disjoint (s : Nat) (rows : List Row) (e2 : Nat) (h : viewsChain s rows e2)
    (i j : Nat) (hi : i < rows.length) (hj : j < rows.length) (hij : i < j) :
    (rows.get ⟨i, hi⟩).Tags.start + (rows.get ⟨i, hi⟩).Tags.len
      ≤ (rows.get ⟨j, hj⟩).Tags.start := by
  induction rows generalizing s i j with
  | nil => exact absurd hi (by simp)
  | cons r rest ih =>
    obtain ⟨h1, h2, h3⟩ := h
    obtain ⟨j2, rfl⟩ : ∃ j2, j = j2 + 1 := ⟨j - 1, by omega⟩
    have hj2 : j2 < rest.length := by simpa using hj
    cases i with
    | zero =>
      have hget := chain_get (s + r.Tags.len) rest e2 h3 j2 hj2
      show r.Tags.start + r.Tags.len ≤ (rest.get ⟨j2, hj2⟩).Tags.start
      have := hget.2.1
      omega
    | succ i2 =>
      have hi2 : i2 < rest.length := by simpa using hi
      show (rest.get ⟨i2, hi2⟩).Tags.start + (rest.get ⟨i2, hi2⟩).Tags.len
        ≤ (rest.get ⟨j2, hj2⟩).Tags.start
      exact ih (s + r.Tags.len) h3 i2 j2 hi2 hj2 (by omega)

theorem chain_to_ok (rs2 : Rows) (h : viewsChain 0 rs2.rows.data rs2.tagsPool.data.length) :
    arenaTagViewsOk rs2 := by
  refine ⟨h, ?_, ?_⟩
  · intro i hi
    have := chain_get 0 rs2.rows.data rs2.tagsPool.data.length h i hi
    exact ⟨this.1, this.2.2⟩
  · intro i j hi hj hij
    exact chain_disjoint 0 rs2.rows.data rs2.tagsPool.data.length h i j hi hj hij

theorem line_utsegs_len (segs : List (List Char)) :
    ∀ dst : Slice Tag, dst.data.length ≤ (opentsdb.unmarshalTagSegs dst segs).1.data.length := by
  induction segs with
  | nil => intro dst; exact le_refl _
  | cons seg rest ih =>
    intro dst
    unfold opentsdb.unmarshalTagSegs
    rcases htu : opentsdb.Tag.unmarshal seg with e | t
    · dsimp only
      rw [pop_grow_data]
    · dsimp only
      have h := ih (Slice.setLast (Slice.grow dst Tag.zero) t)
      rw [setLast_grow_data, List.length_append] at h
      omega

theorem line_row_view (s : List Char) (pool : Slice Tag) (r : Row) (pool1 : Slice Tag)
    (h : opentsdb.Row.unmarshal s pool = (r, pool1, none)) :
    r.Tags.start = pool.data.length ∧ r.Tags.cap = r.Tags.len ∧
    pool1.data.length = pool.data.length + r.Tags.len := by
  unfold opentsdb.Row.unmarshal at h
  repeat' split at h
  all_goals injection h with h1 hrest
  all_goals injection hrest with h2 h3
  all_goals
    first
    | exact Option.noConfusion h3
    | (subst h2
       refine ⟨by rw [← h1] <;> rfl, by rw [← h1] <;> rfl, ?_⟩
       rw [← h1]
       dsimp only
       rename_i vTok tagTail heq3 xres pool2 heq
       have hle : pool.data.length ≤ pool2.data.length := by
         have hmono := line_utsegs_len (splitAll ' ' tagTail) pool
         rw [show opentsdb.unmarshalTagSegs pool (splitAll ' ' tagTail) =
           opentsdb.unmarshalTags pool tagTail from rfl, heq] at hmono
         exact hmono
       omega)

theorem line_rowsegs_chain (segs : List (List Char)) :
    ∀ (dst : Slice Row) (pool : Slice Tag) (dst2 : Slice Row) (pool2 : Slice Tag),
      opentsdb.unmarshalRowSegs dst pool segs = (dst2, pool2, none) →
      ∃ new, dst2.data = dst.data ++ new ∧
        viewsChain pool.data.length new pool2.data.length := by
  induction segs with
  | nil =>
    intro dst pool dst2 pool2 h
    unfold opentsdb.unmarshalRowSegs at h
    injection h with h1 hrest
    injection hrest with h2 h3
    subst h1
    subst h2
    exact ⟨[], by simp, rfl⟩
  | cons seg rest ih =>
    intro dst pool dst2 pool2 h
    unfold opentsdb.unmarshalRowSegs at h
    split at h
    · exact ih dst pool dst2 pool2 h
    · rcases hru : opentsdb.Row.unmarshal seg pool with ⟨r, p1, e⟩
      rw [hru] at h
      cases e with
      | some msg =>
        dsimp only at h
        injection h with h1 hrest
        injection hrest with h2 h3
        exact Option.noConfusion h3
      | none =>
        dsimp only at h
        obtain ⟨new2, hdata, hchain⟩ := ih _ _ _ _ h
        obtain ⟨hstart, hcap, hlen⟩ := line_row_view seg pool r p1 hru
        refine ⟨r :: new2, ?_, ?_⟩
        · rw [hdata, setLast_grow_data]
          simp
        · refine ⟨hstart, hcap, ?_⟩
          rw [show pool.data.length + r.Tags.len = p1.data.length from by omega]
          exact hchain

theorem json_ut_len (fields : List (String × JsonValue)) :
    ∀ dst : Slice Tag, dst.data.length ≤ (opentsdbhttp.unmarshalTags dst fields).data.length := by
  induction fields with
  | nil => intro dst; exact le_refl _
  | cons kv rest ih =>
    intro dst
    obtain ⟨k, v⟩ := kv
    cases v with
    | str tv =>
      show dst.data.length
        ≤ (opentsdbhttp.unmarshalTags (Slice.setLast (Slice.grow dst Tag.zero) ⟨k, tv⟩) rest).data.length
      have h := ih (Slice.setLast (Slice.grow dst Tag.zero) ⟨k, tv⟩)
      rw [setLast_grow_data, List.length_append] at h
      omega
    | null =>
      show dst.data.length
        ≤ (opentsdbhttp.unmarshalTags (Slice.pop (Slice.grow dst Tag.zero)) rest).data.length
      have h := ih (Slice.pop (Slice.grow dst Tag.zero))
      rw [pop_grow_data] at h
      exact h
    | boolean b =>
      show dst.data.length
        ≤ (opentsdbhttp.unmarshalTags (Slice.pop (Slice.grow dst Tag.zero)) rest).data.length
      have h := ih (Slice.pop (Slice.grow dst Tag.zero))
      rw [pop_grow_data] at h
      exact h
    | num raw =>
      show dst.data.length
        ≤ (opentsdbhttp.unmarshalTags (Slice.pop (Slice.grow dst Tag.zero)) rest).data.length
      have h := ih (Slice.pop (Slice.grow dst Tag.zero))
      rw [pop_grow_data] at h
      exact h
    | arr elems =>
      show dst.data.length
        ≤ (opentsdbhttp.unmarshalTags (Slice.pop (Slice.grow dst Tag.zero)) rest).data.length
      have h := ih (Slice.pop (Slice.grow dst Tag.zero))
      rw [pop_grow_data] at h
      exact h
    | obj fields2 =>
      show dst.data.length
        ≤ (opentsdbhttp.unmarshalTags (Slice.pop (Slice.grow dst Tag.zero)) rest).data.length
      have h := ih (Slice.pop (Slice.grow dst Tag.zero))
      rw [pop_grow_data] at h
      exact h

theorem row_json_view (o : JsonValue) (pool : Slice Tag) (r : Row) (pool1 : Slice Tag)
    (h : opentsdbhttp.Row.unmarshal o pool = (r, pool1, none)) :
    r.Tags.start = pool.data.length ∧ r.Tags.cap = r.Tags.len ∧
    pool1.data.length = pool.data.length + r.Tags.len := by
  unfold opentsdbhttp.Row.unmarshal at h
  repeat' split at h
  all_goals injection h with h1 hrest
  all_goals injection hrest with h2 h3
  all_goals
    first
    | exact Option.noConfusion h3
    | (have hle : pool.data.length ≤ pool1.data.length := by
         rw [← h2]
         exact json_ut_len _ pool
       refine ⟨by rw [← h1] <;> rfl, by rw [← h1] <;> rfl, ?_⟩
       rw [← h1]
       dsimp only
       rw [h2]
       omega)

theorem objelems_chain (elems : List JsonValue) :
    ∀ (dst : Slice Row) (pool : Slice Tag) (dst2 : Slice Row) (pool2 : Slice Tag),
      opentsdbhttp.unmarshalObjElems dst pool elems = (dst2, pool2, none) →
      ∃ new, dst2.data = dst.data ++ new ∧
        viewsChain pool.data.length new pool2.data.length := by
  induction elems with
  | nil =>
    intro dst pool dst2 pool2 h
    unfold opentsdbhttp.unmarshalObjElems at h
    injection h with h1 hrest
    injection hrest with h2 h3
    subst h1
    subst h2
    exact ⟨[], by simp, rfl⟩
  | cons e rest ih =>
    intro dst pool dst2 pool2 h
    unfold opentsdbhttp.unmarshalObjElems at h
    rcases hru : opentsdbhttp.Row.unmarshal e pool with ⟨r, p1, er⟩
    rw [hru] at h
    cases er with
    | some msg =>
      dsimp only at h
      injection h with h1 hrest
      injection hrest with h2 h3
      exact Option.noConfusion h3
    | none =>
      dsimp only at h
      obtain ⟨new2, hdata, hchain⟩ := ih _ _ _ _ h
      obtain ⟨hstart, hcap, hlen⟩ := row_json_view e pool r p1 hru
      refine ⟨r :: new2, ?_, ?_⟩
      · rw [hdata, setLast_grow_data]
        simp
      · refine ⟨hstart, hcap, ?_⟩
        rw [show pool.data.length + r.Tags.len = p1.data.length from by omega]
        exact hchain

theorem json_unmarshalRows_chain (av : Option JsonValue) (dst : Slice Row) (pool : Slice Tag)
    (dst2 : Slice Row) (pool2 : Slice Tag)
    (h : opentsdbhttp.unmarshalRows dst av pool = (dst2, pool2, none)) :
    ∃ new, dst2.data = dst.data ++ new ∧
      viewsChain pool.data.length new pool2.data.length := by
  unfold opentsdbhttp.unmarshalRows at h
  cases av with
  | none =>
    injection h with h1 hrest
    injection hrest with h2 h3
    exact Option.noConfusion h3
  | some v =>
    cases v with
    | obj fields =>
      dsimp only at h
      rcases hru : opentsdbhttp.Row.unmarshal (.obj fields) pool with ⟨r, p1, er⟩
      rw [hru] at h
      cases er with
      | some msg =>
        dsimp only at h
        injection h with h1 hrest
        injection hrest with h2 h3
        exact Option.noConfusion h3
      | none =>
        dsimp only at h
        injection h with h1 hrest
        injection hrest with h2 h3
        subst h1
        subst h2
        obtain ⟨hstart, hcap, hlen⟩ := row_json_view (.obj fields) pool r p1 hru
        refine ⟨[r], by rw [setLast_grow_data], ?_⟩
        exact ⟨hstart, hcap,
          (by omega : pool.data.length + r.Tags.len = p1.data.length)⟩
    | arr elems => exact objelems_chain elems dst pool dst2 pool2 h
    | null =>
      injection h with h1 hrest
      injection hrest with h2 h3
      exact Option.noConfusion h3
    | boolean b =>
      injection h with h1 hrest
      injection hrest with h2 h3
      exact Option.noConfusion h3
    | num raw =>
      injection h with h1 hrest
      injection hrest with h2 h3
      exact Option.noConfusion h3
    | str sv =>
      injection h with h1 hrest
      injection hrest with h2 h3
      exact Option.noConfusion h3

/-- Claim C10: after every successful `Unmarshal` (line format or JSON
format), the rows' tag views are full-capacity (`cap = len`, from the
three-index slice expression) sub-ranges of the shared tag pool, consecutive
in parse order from position 0, hence pairwise disjoint: writing through one
row's tag view cannot reach another row's tags. -/
theorem c10_tag_views :
    (∀ (rs : Rows) (s : String),
      (opentsdb.Rows.Unmarshal rs s).2 = none →
      arenaTagViewsOk (opentsdb.Rows.Unmarshal rs s).1) ∧
    (∀ (rs : Rows) (av : Option JsonValue),
      (opentsdbhttp.Rows.Unmarshal rs av).2 = none →
      arenaTagViewsOk (opentsdbhttp.Rows.Unmarshal rs av).1) := by
  constructor
  · intro rs s h
    unfold opentsdb.Rows.Unmarshal opentsdb.unmarshalRows at h ⊢
    rcases hres : opentsdb.unmarshalRowSegs (Slice.truncZero rs.rows)
      (Slice.truncZero rs.tagsPool) (splitAll '\n' s.data) with ⟨dst2, pool2, e⟩
    rw [hres] at h
    obtain rfl : e = none := h
    obtain ⟨new, hdata, hchain⟩ := line_rowsegs_chain _ _ _ _ _ hres
    apply chain_to_ok
    show viewsChain 0 dst2.data pool2.data.length
    rw [hdata]
    exact hchain
  · intro rs av h
    unfold opentsdbhttp.Rows.Unmarshal at h ⊢
    rcases hres : opentsdbhttp.unmarshalRows (Slice.truncZero rs.rows) av
      (Slice.truncZero rs.tagsPool) with ⟨dst2, pool2, e⟩
    rw [hres] at h
    obtain rfl : e = none := h
    obtain ⟨new, hdata, hchain⟩ := json_unmarshalRows_chain av _ _ _ _ hres
    apply chain_to_ok
    show viewsChain 0 dst2.data pool2.data.length
    rw [hdata]
    exact hchain

/-- Witness for C10 at one concrete parse per format. -/
theorem c10_tag_views_witness :
    arenaTagViewsOk (opentsdb.Rows.Unmarshal Rows.empty "put a 1 2 k=v").1 ∧
    arenaTagViewsOk (opentsdbhttp.Rows.Unmarshal Rows.empty
      (some (.obj [("metric", .str "m"), ("timestamp", .num "1"), ("value", .num "2"),
                   ("tags", .obj [("k", .str "v")])]))).1 :=
  ⟨c10_tag_views.1 Rows.empty "put a 1 2 k=v" (by decide),
   c10_tag_views.2 Rows.empty
     (some (.obj [("metric", .str "m"), ("timestamp", .num "1"), ("value", .num "2"),
                  ("tags", .obj [("k", .str "v")])])) (by rfl)⟩
